import Mathlib

/-!
Verification of the Moop L2a tape-loop engine (`src/moop_enhanced.c`)

Shallow embedding of the L2a runtime: a bit register (`qubits`), a circular
operation log ("tape") with per-entry evolutionary fitness, checkpoint/restore
by replaying self-inverse operations, and the fitness/pruning/tuning engine.

Modelling conventions:
* C `float` arithmetic is modelled as exact rational arithmetic (`ℚ`).  All
  constants involved (0.5, 0.3, 0.2, 0.4, 0.1, 100, …) and the claims under
  study are about orderings and exact thresholds that float rounding does not
  disturb at the magnitudes involved.
* `uint32_t` counters (`total_ops`) are modelled as `Nat` with explicit
  `% 2^32` at each increment/decrement, because the decrement in `l2a_restore`
  and the subtraction `total_ops - last_used` in `l2a_compute_fitness` really
  do wrap in C.  `pruning_cycles` and `last_prune_op` are kept as plain `Nat`
  (their uint32 wraparound needs 2^32 pruning cycles and is not modelled).
* The macro `L1_TAPE_SIZE` (1024 in the C header) appears as an explicit
  parameter `cap` of every tape operation; `L1_TAPE_SIZE` itself is defined
  below and concrete scenarios instantiate `cap := L1_TAPE_SIZE`.
* The register is a `List Nat` (`uint8_t*` in C).  Reads are `List.getD · 0`
  and writes `List.set`; out-of-range register access is undefined behavior in
  the C source and every claim restricts itself to in-range indices.
* Fields `instance_id` and `qubit_count` of the C struct are dropped: the
  former is inert, the latter is `qubits.length`.
-/

/-- `L1_TAPE_SIZE` from `moop_enhanced.h`: the fixed tape capacity. -/
def L1_TAPE_SIZE : Nat := 1024

/-- `2^32`, the modulus of `uint32_t` arithmetic. -/
def U32 : Nat := 4294967296

/-- `R_Cell`: a recorded operation.  `gate`: 0 = CCNOT (DoubleCondFlip),
1 = CNOT (CondFlip), 2 = NOT (Flip), 3 = SWAP (Exchange); `a b c` are
register indices (`uint8_t` in C). -/
structure RCell where
  gate : Nat
  a : Nat
  b : Nat
  c : Nat
deriving DecidableEq, Repr

/-- `Tape_Entry`: one slot of the circular log. -/
structure TapeEntry where
  cell : RCell
  fitness : ℚ
  last_used : Nat
  essential : Bool
deriving DecidableEq, Repr

/-- `Fitness_Params`: meta-evolution parameters. -/
structure FitnessParams where
  recency_weight : ℚ
  activity_weight : ℚ
  gate_weight : ℚ
  prune_interval : Nat
  prune_threshold : ℚ
deriving DecidableEq, Repr

/-- The `L2a_Runtime` struct. -/
structure L2aRuntime where
  qubits : List Nat
  tape : List TapeEntry
  tape_head : Nat
  total_ops : Nat
  tape_wrapped : Bool
  pruning_cycles : Nat
  last_prune_op : Nat
  fitness_params : FitnessParams
deriving DecidableEq, Repr

/-- The all-zero tape entry every slot starts with (and is reset to by
pruning): cell `{0,0,0,0}`, fitness 0, `last_used` 0, not essential. -/
def emptyEntry : TapeEntry :=
  { cell := ⟨0, 0, 0, 0⟩, fitness := 0, last_used := 0, essential := false }

/-- `l2a_init`: fresh runtime with `qn` zeroed register cells, `cap` zeroed
tape slots, and the default fitness parameters (0.5 / 0.3 / 0.2 weights,
prune interval 256, keep fraction 0.75). -/
def l2a_init (cap qn : Nat) : L2aRuntime :=
  { qubits := List.replicate qn 0
    tape := List.replicate cap emptyEntry
    tape_head := 0
    total_ops := 0
    tape_wrapped := false
    pruning_cycles := 0
    last_prune_op := 0
    fitness_params :=
      { recency_weight := 1/2
        activity_weight := 3/10
        gate_weight := 1/5
        prune_interval := 256
        prune_threshold := 3/4 } }

/-- The `switch(c.gate)` used both by the four primitives and by
`l2a_restore`: execute one recorded operation in place on the register. -/
def applyCell (c : RCell) (q : List Nat) : List Nat :=
  match c.gate with
  | 0 => if q.getD c.a 0 ≠ 0 ∧ q.getD c.b 0 ≠ 0 then
           q.set c.c ((q.getD c.c 0).xor 1) else q
  | 1 => if q.getD c.a 0 ≠ 0 then q.set c.b ((q.getD c.b 0).xor 1) else q
  | 2 => q.set c.a ((q.getD c.a 0).xor 1)
  | 3 => (q.set c.a (q.getD c.b 0)).set c.b (q.getD c.a 0)
  | _ => q

/-- Fitness of a tape entry `e` in runtime `r` (the body of
`l2a_compute_fitness`, which depends on the entry only through its
`cell`, `last_used` and `essential` fields):
recency `1/(1 + age/100)` with `age = total_ops - last_used` in uint32
arithmetic, activity contributions 0.3/0.3/0.2 for operands whose register
bit is set (bounds-checked as in C), gate priority 0.4/0.3/0.2/0.1 for
CCNOT/CNOT/SWAP/NOT, combined with the adaptive weights; essential
entries report fitness 1. -/
def entryFitness (r : L2aRuntime) (e : TapeEntry) : ℚ :=
  let age : Nat := (r.total_ops + U32 - e.last_used) % U32
  let recency : ℚ := if age = 0 then 1 else 1 / (1 + (age : ℚ) / 100)
  let qubit_activity : ℚ :=
    (if e.cell.a < r.qubits.length ∧ r.qubits.getD e.cell.a 0 ≠ 0
       then 3/10 else 0) +
    (if e.cell.b < r.qubits.length ∧ r.qubits.getD e.cell.b 0 ≠ 0
       then 3/10 else 0) +
    (if e.cell.c < r.qubits.length ∧ r.qubits.getD e.cell.c 0 ≠ 0
       then 1/5 else 0)
  let gate_priority : ℚ :=
    match e.cell.gate with
    | 0 => 2/5
    | 1 => 3/10
    | 3 => 1/5
    | 2 => 1/10
    | _ => 0
  let fitness :=
    r.fitness_params.recency_weight * recency +
    r.fitness_params.activity_weight * qubit_activity +
    r.fitness_params.gate_weight * gate_priority
  if e.essential then 1 else fitness

/-- `l2a_compute_fitness(r, index)`.  The C code reads `r->tape[index]`
unchecked; out-of-range indices are undefined behavior there, modelled as the
default entry here, and all claims use in-range indices. -/
def l2a_compute_fitness (r : L2aRuntime) (index : Nat) : ℚ :=
  entryFitness r (r.tape.getD index emptyEntry)

/-- The admission condition of `record_to_tape`: the write is stored iff the
occupant is not essential and (`new_fitness >= existing.fitness` or the tape
has not wrapped). -/
def recordStored (r : L2aRuntime) : Bool :=
  let existing := r.tape.getD r.tape_head emptyEntry
  let new_fitness := l2a_compute_fitness r r.tape_head
  !existing.essential &&
    (decide (existing.fitness ≤ new_fitness) || !r.tape_wrapped)

/-- `l2a_mark_essential`: protect slot `index % cap` and pin its fitness
at 1. -/
def l2a_mark_essential (cap : Nat) (r : L2aRuntime) (index : Nat) :
    L2aRuntime :=
  { r with tape := r.tape.modify (fun e =>
      { e with essential := true, fitness := 1 }) (index % cap) }

/-- One compare-and-swap pass of the bubble sort in `l2a_prune_tape`:
adjacent entries are swapped when `tape[j].fitness < tape[j+1].fitness`,
moving lower-fitness entries toward the tail.  The C code runs pass `i`
only over `j < L1_TAPE_SIZE - i - 1`; the comparisons this skips are inside
the already-sorted, all-smaller tail and never swap, so running every pass
over the whole list yields the same array. -/
def bpAux (a : TapeEntry) : List TapeEntry → List TapeEntry
  | [] => [a]
  | b :: t => if a.fitness < b.fitness then b :: bpAux a t
              else a :: bpAux b t

/-- One full pass: `bubblePass (a :: t) = bpAux a t`, so
`bubblePass (a :: b :: t)` is `if a.fitness < b.fitness then
b :: bubblePass (a :: t) else a :: bubblePass (b :: t)` — the inner loop
with the current left-hand element of each comparison held in `bpAux`'s
first argument. -/
def bubblePass : List TapeEntry → List TapeEntry
  | [] => []
  | a :: t => bpAux a t

/-- `n` bubble passes (`n = L1_TAPE_SIZE - 1` in `l2a_prune_tape`). -/
def bubblePasses : Nat → List TapeEntry → List TapeEntry
  | 0, l => l
  | n + 1, l => bubblePasses n (bubblePass l)

/-- Step 3 of `l2a_prune_tape`: reset every non-essential entry at position
`≥ cut` to the empty entry.  `go i l` resets the entries of `l`, which
occupy positions `i, i+1, …` of the tape. -/
def resetTailGo (cut : Nat) : Nat → List TapeEntry → List TapeEntry
  | _, [] => []
  | i, e :: t =>
    (if cut ≤ i ∧ e.essential = false then emptyEntry else e) ::
      resetTailGo cut (i + 1) t

/-- Step 3 of `l2a_prune_tape` over the whole (sorted) tape. -/
def resetTail (cut : Nat) (l : List TapeEntry) : List TapeEntry :=
  resetTailGo cut 0 l

/-- Step 1 of `l2a_prune_tape`: recompute the fitness of every non-essential
entry (each entry's fitness depends only on that entry, the register and the
counters, so the C in-place loop is a map). -/
def recomputeFitness (r : L2aRuntime) : List TapeEntry :=
  r.tape.map (fun e =>
    if e.essential then e else { e with fitness := entryFitness r e })

/-- `l2a_prune_tape`: recompute fitness, bubble-sort all `cap` entries by
descending fitness (`cap - 1` passes), reset the non-essential entries ranked
at or past `⌊cap * prune_threshold⌋`, bump `pruning_cycles` and remember
`last_prune_op`. -/
def l2a_prune_tape (cap : Nat) (r : L2aRuntime) : L2aRuntime :=
  let sorted := bubblePasses (cap - 1) (recomputeFitness r)
  let cut : Nat := (cap * r.fitness_params.prune_threshold).floor.toNat
  { r with
    tape := resetTail cut sorted
    pruning_cycles := r.pruning_cycles + 1
    last_prune_op := r.total_ops }

/-- `record_to_tape`: the helper every one of the four primitives calls after
mutating the register.  Computes the candidate fitness **of the slot at the
cursor** (`l2a_compute_fitness(r, target_index)`, i.e. of the current
occupant), stores the new cell there if the occupant is not essential and the
tape either has not wrapped or the candidate fitness is at least the stored
one, returns unchanged (`return;`) if the candidate fitness is strictly below
the stored one on a wrapped tape, and otherwise (essential occupant) skips
the store; in the two non-return cases it advances the cursor mod `cap`,
increments `total_ops`, sets `tape_wrapped` when the cursor wraps to 0, and
triggers `l2a_prune_tape` when `total_ops - last_prune_op` reaches the prune
interval. -/
def record_to_tape (cap : Nat) (r : L2aRuntime) (cell : RCell) :
    L2aRuntime :=
  let target := r.tape_head
  let new_fitness := l2a_compute_fitness r target
  let existing := r.tape.getD target emptyEntry
  if recordStored r then
    let r1 := { r with
      tape := r.tape.set target
        { cell := cell, fitness := new_fitness,
          last_used := r.total_ops, essential := false },
      tape_head := (target + 1) % cap,
      total_ops := (r.total_ops + 1) % U32 }
    let r2 := { r1 with
      tape_wrapped :=
        if r1.tape_head = 0 ∧ 0 < r1.total_ops then true else r1.tape_wrapped }
    if r2.fitness_params.prune_interval ≤
        (r2.total_ops + U32 - r2.last_prune_op) % U32 then
      l2a_prune_tape cap r2
    else r2
  else if new_fitness < existing.fitness ∧ r.tape_wrapped then
    r
  else
    let r1 := { r with
      tape_head := (target + 1) % cap,
      total_ops := (r.total_ops + 1) % U32 }
    let r2 := { r1 with
      tape_wrapped :=
        if r1.tape_head = 0 ∧ 0 < r1.total_ops then true else r1.tape_wrapped }
    if r2.fitness_params.prune_interval ≤
        (r2.total_ops + U32 - r2.last_prune_op) % U32 then
      l2a_prune_tape cap r2
    else r2

/-- `l2a_CCNOT` (DoubleCondFlip): flip `c` when `a` and `b` are set, then
record `{0, a, b, c}`. -/
def l2a_CCNOT (cap : Nat) (r : L2aRuntime) (a b c : Nat) : L2aRuntime :=
  record_to_tape cap { r with qubits := applyCell ⟨0, a, b, c⟩ r.qubits }
    ⟨0, a, b, c⟩

/-- `l2a_CNOT` (CondFlip): flip `b` when `a` is set, then record
`{1, a, b, 0}`. -/
def l2a_CNOT (cap : Nat) (r : L2aRuntime) (a b : Nat) : L2aRuntime :=
  record_to_tape cap { r with qubits := applyCell ⟨1, a, b, 0⟩ r.qubits }
    ⟨1, a, b, 0⟩

/-- `l2a_NOT` (Flip): flip `a`, then record `{2, a, 0, 0}`. -/
def l2a_NOT (cap : Nat) (r : L2aRuntime) (a : Nat) : L2aRuntime :=
  record_to_tape cap { r with qubits := applyCell ⟨2, a, 0, 0⟩ r.qubits }
    ⟨2, a, 0, 0⟩

/-- `l2a_SWAP` (Exchange): exchange cells `a` and `b`, then record
`{3, a, b, 0}`. -/
def l2a_SWAP (cap : Nat) (r : L2aRuntime) (a b : Nat) : L2aRuntime :=
  record_to_tape cap { r with qubits := applyCell ⟨3, a, b, 0⟩ r.qubits }
    ⟨3, a, b, 0⟩

/-- `l2a_checkpoint`: mark the slot at the current cursor essential and
return its index together with the updated runtime. -/
def l2a_checkpoint (cap : Nat) (r : L2aRuntime) : Nat × L2aRuntime :=
  (r.tape_head, l2a_mark_essential cap r r.tape_head)

/-- One iteration of the `l2a_restore` loop body: step the cursor backward
(wrapping), replay the operation stored at the new cursor position
(self-inverse semantics), and decrement `total_ops` (uint32). -/
def restoreStep (cap : Nat) (r : L2aRuntime) : L2aRuntime :=
  let h := if r.tape_head = 0 then cap - 1 else r.tape_head - 1
  { r with
    tape_head := h
    qubits := applyCell (r.tape.getD h emptyEntry).cell r.qubits
    total_ops := (r.total_ops + U32 - 1) % U32 }

/-- The `while (r->tape_head != checkpoint)` loop of `l2a_restore`, with
explicit fuel.  With fuel `cap` this is exact for every checkpoint the loop
can reach (any `checkpoint < cap`, reached in at most `cap - 1` steps from a
cursor in `[0, cap)`); on a target the C loop would never reach, the C code
loops forever and the model stops after `cap` iterations. -/
def restoreAux (cap : Nat) : Nat → L2aRuntime → Nat → L2aRuntime
  | 0, r, _ => r
  | fuel + 1, r, checkpoint =>
    if r.tape_head = checkpoint then r
    else restoreAux cap fuel (restoreStep cap r) checkpoint

/-- `l2a_restore`: rewind the cursor to `checkpoint`, replaying each stored
operation backward. -/
def l2a_restore (cap : Nat) (r : L2aRuntime) (checkpoint : Nat) :
    L2aRuntime :=
  restoreAux cap cap r checkpoint

/-- `l2a_read_tape`: read the operation at slot `index % cap`. -/
def l2a_read_tape (cap : Nat) (r : L2aRuntime) (index : Nat) : RCell :=
  (r.tape.getD (index % cap) emptyEntry).cell

/-- `l2a_write_tape`: unconditionally overwrite the operation at slot
`index % cap` and touch its `last_used`; cursor and `total_ops` are not
consulted or changed. -/
def l2a_write_tape (cap : Nat) (r : L2aRuntime) (index : Nat) (cell : RCell) :
    L2aRuntime :=
  { r with tape := r.tape.modify (fun e =>
      { e with cell := cell, last_used := r.total_ops }) (index % cap) }

/-- `l2a_get_tape_entry`: read the whole entry at slot `index % cap`. -/
def l2a_get_tape_entry (cap : Nat) (r : L2aRuntime) (index : Nat) :
    TapeEntry :=
  r.tape.getD (index % cap) emptyEntry

/-- `l2a_tune_fitness`: renormalize the three weights to sum to 1 when their
given total is positive (otherwise keep the old weights), take the new prune
interval only if nonzero and the new keep fraction only if in `(0, 1]`, then
recompute every non-essential entry's fitness under the new parameters. -/
def l2a_tune_fitness (r : L2aRuntime) (params : FitnessParams) :
    L2aRuntime :=
  let total_weight :=
    params.recency_weight + params.activity_weight + params.gate_weight
  let fp1 :=
    if 0 < total_weight then
      { r.fitness_params with
        recency_weight := params.recency_weight / total_weight
        activity_weight := params.activity_weight / total_weight
        gate_weight := params.gate_weight / total_weight }
    else r.fitness_params
  let fp2 :=
    if 0 < params.prune_interval then
      { fp1 with prune_interval := params.prune_interval }
    else fp1
  let fp3 :=
    if 0 < params.prune_threshold ∧ params.prune_threshold ≤ 1 then
      { fp2 with prune_threshold := params.prune_threshold }
    else fp2
  let r1 := { r with fitness_params := fp3 }
  { r1 with tape := recomputeFitness r1 }

/-!
Support definitions for the claims
-/

/-- The spec §8 concrete scenario, step 0: fresh runtime, 4-cell register,
tape capacity `L1_TAPE_SIZE`. -/
def scnInit : L2aRuntime := l2a_init L1_TAPE_SIZE 4

/-- Scenario after Flip(0), CondFlip(0,1), DoubleCondFlip(0,1,2). -/
def scnAfter3 : L2aRuntime :=
  l2a_CCNOT L1_TAPE_SIZE
    (l2a_CNOT L1_TAPE_SIZE (l2a_NOT L1_TAPE_SIZE scnInit 0) 0 1) 0 1 2

/-- Scenario checkpoint: returned index and updated runtime. -/
def scnCheckpoint : Nat × L2aRuntime := l2a_checkpoint L1_TAPE_SIZE scnAfter3

/-- Scenario after the further Flip(3). -/
def scnAfterFlip3 : L2aRuntime :=
  l2a_NOT L1_TAPE_SIZE scnCheckpoint.2 3

/-- Scenario after restoring to the checkpoint. -/
def scnFinal : L2aRuntime :=
  l2a_restore L1_TAPE_SIZE scnAfterFlip3 scnCheckpoint.1

/-- A fresh runtime whose slot 0 was just protected by a checkpoint. -/
def protState : L2aRuntime :=
  (l2a_checkpoint L1_TAPE_SIZE (l2a_init L1_TAPE_SIZE 4)).2

/-- `protState` after a Flip(0), whose record hits the protected slot 0. -/
def protAfter : L2aRuntime := l2a_NOT L1_TAPE_SIZE protState 0

/-- Modelled from the spec (§4.2 step 1, the candidate-fitness rule the code
deviates from): the fitness the incoming operation would have if it were
already resident in the target slot with maximal recency, i.e. an entry
holding the new cell with `last_touch = total_ops` (age 0) and no
protection. -/
def specCandidateFitness (r : L2aRuntime) (cell : RCell) : ℚ :=
  entryFitness r
    { cell := cell, fitness := 0, last_used := r.total_ops, essential := false }

/-- A wrapped runtime exhibiting the admission-check divergence: slot 0
holds a DoubleCondFlip on cells 1,1,1 with stored fitness 0.7, cell 1 of the
register is set, and two operations have been counted. -/
def admState : L2aRuntime :=
  { qubits := [0, 1, 0, 0]
    tape := (List.replicate L1_TAPE_SIZE emptyEntry).set 0
      { cell := ⟨0, 1, 1, 1⟩, fitness := 7/10, last_used := 0,
        essential := false }
    tape_head := 0
    total_ops := 2
    tape_wrapped := true
    pruning_cycles := 0
    last_prune_op := 0
    fitness_params := (l2a_init 0 0).fitness_params }

/-- `admState` after a Flip(3) (the divergence input of claim C3). -/
def admAfter : L2aRuntime := l2a_NOT L1_TAPE_SIZE admState 3

/-- One of the four loggable operations together with its operands. -/
inductive MoopOp where
  | ccnot (a b c : Nat)
  | cnot (a b : Nat)
  | not (a : Nat)
  | swap (a b : Nat)
deriving DecidableEq, Repr

/-- The `R_Cell` each operation records. -/
def opCell : MoopOp → RCell
  | .ccnot a b c => ⟨0, a, b, c⟩
  | .cnot a b => ⟨1, a, b, 0⟩
  | .not a => ⟨2, a, 0, 0⟩
  | .swap a b => ⟨3, a, b, 0⟩

/-- Apply one operation through the public API. -/
def runOp (cap : Nat) (r : L2aRuntime) : MoopOp → L2aRuntime
  | .ccnot a b c => l2a_CCNOT cap r a b c
  | .cnot a b => l2a_CNOT cap r a b
  | .not a => l2a_NOT cap r a
  | .swap a b => l2a_SWAP cap r a b

/-- Apply a list of operations in order. -/
def runOps (cap : Nat) (r : L2aRuntime) (l : List MoopOp) : L2aRuntime :=
  l.foldl (runOp cap) r

/-- Whether the record issued by operation `o` from state `r` is accepted
(stored): the admission condition evaluated in the post-execution state the
operation records from. -/
def opAccepted (r : L2aRuntime) (o : MoopOp) : Bool :=
  recordStored { r with qubits := applyCell (opCell o) r.qubits }

/-- Every record in the sequence is accepted. -/
def allAccepted (cap : Nat) : L2aRuntime → List MoopOp → Bool
  | _, [] => true
  | r, o :: t => opAccepted r o && allAccepted cap (runOp cap r o) t

/-- The commands reachability quantifies over: the four operations plus the
checkpoint/restore, pruning and homoiconic-write entry points. -/
inductive MoopCmd where
  | op (o : MoopOp)
  | restore (checkpoint : Nat)
  | checkpoint
  | prune
  | writeTape (index : Nat) (cell : RCell)
  | markEssential (index : Nat)
deriving DecidableEq, Repr

/-- Run one command. -/
def runCmd (cap : Nat) (r : L2aRuntime) : MoopCmd → L2aRuntime
  | .op o => runOp cap r o
  | .restore ck => l2a_restore cap r ck
  | .checkpoint => (l2a_checkpoint cap r).2
  | .prune => l2a_prune_tape cap r
  | .writeTape i c => l2a_write_tape cap r i c
  | .markEssential i => l2a_mark_essential cap r i

/-- Run a command list from a fresh runtime. -/
def runCmds (cap qn : Nat) (cmds : List MoopCmd) : L2aRuntime :=
  cmds.foldl (runCmd cap) (l2a_init cap qn)

/-- All operand indices of an operation are in range for a register of
`qn` cells. -/
def opInRange (qn : Nat) : MoopOp → Bool
  | .ccnot a b c => decide (a < qn) && decide (b < qn) && decide (c < qn)
  | .cnot a b => decide (a < qn) && decide (b < qn)
  | .not a => decide (a < qn)
  | .swap a b => decide (a < qn) && decide (b < qn)

/-- The command language of claim C10: only the four operations (with
in-range operands) and restore calls. -/
def cmdOpOrRestore (qn : Nat) : MoopCmd → Bool
  | .op o => opInRange qn o
  | .restore _ => true
  | _ => false

/-- Every register cell is a bit. -/
def BitsOk (q : List Nat) : Prop := ∀ x ∈ q, x = 0 ∨ x = 1

/-- Descending-fitness ordering of a tape segment. -/
def SortedDesc (l : List TapeEntry) : Prop :=
  l.Pairwise (fun x y => y.fitness ≤ x.fitness)

/-- A runtime refuting unrestricted fitness monotonicity: two identical
non-protected Flip(0) entries with `last_touch` 0 and 1 observed at
`total_ops = 0` (reachable after restore rewound the counter): the uint32
age of the second entry underflows to `2^32 - 1`. -/
def c8CxState : L2aRuntime :=
  { qubits := [0]
    tape :=
      [{ cell := ⟨2, 0, 0, 0⟩, fitness := 0, last_used := 0,
         essential := false },
       { cell := ⟨2, 0, 0, 0⟩, fitness := 0, last_used := 1,
         essential := false }]
    tape_head := 0
    total_ops := 0
    tape_wrapped := false
    pruning_cycles := 0
    last_prune_op := 0
    fitness_params := (l2a_init 0 0).fitness_params }

/-- A runtime with two identical non-protected entries touched at 3 and 5,
observed at `total_ops = 6` (the well-behaved monotonicity situation). -/
def c8WitState : L2aRuntime :=
  { qubits := [0]
    tape :=
      [{ cell := ⟨2, 0, 0, 0⟩, fitness := 0, last_used := 3,
         essential := false },
       { cell := ⟨2, 0, 0, 0⟩, fitness := 0, last_used := 5,
         essential := false }]
    tape_head := 0
    total_ops := 6
    tape_wrapped := false
    pruning_cycles := 0
    last_prune_op := 0
    fitness_params := (l2a_init 0 0).fitness_params }

/-- A capacity-2 runtime for exercising `l2a_prune_tape` concretely: slot 0
empty and unprotected, slot 1 protected (fitness pinned at 1), register
`[1]`, five operations counted. -/
def pruneWitState : L2aRuntime :=
  { qubits := [1]
    tape :=
      [emptyEntry,
       { cell := ⟨2, 0, 0, 0⟩, fitness := 1, last_used := 0,
         essential := true }]
    tape_head := 0
    total_ops := 5
    tape_wrapped := true
    pruning_cycles := 0
    last_prune_op := 0
    fitness_params := (l2a_init 0 0).fitness_params }

/-!
Helper lemmas
-/

theorem xor_one_xor_one (x : Nat) : (x.xor 1).xor 1 = x :=
  Nat.xor_cancel_right 1 x

theorem getD_set_self {α : Type} (q : List α) (d : α) (a : Nat) (v : α)
    (h : a < q.length) : (q.set a v).getD a d = v := by
  simp [List.getD_eq_getElem?_getD, List.getElem?_set_self h]

theorem getD_set_ne {α : Type} (q : List α) (d : α) {a b : Nat} (h : a ≠ b)
    (v : α) : (q.set a v).getD b d = q.getD b d := by
  simp [List.getD_eq_getElem?_getD, List.getElem?_set_ne h]

theorem set_getD_self {α : Type} (q : List α) (d : α) (a : Nat)
    (h : a < q.length) : q.set a (q.getD a d) = q := by
  apply List.ext_getElem?
  intro i
  by_cases hi : a = i
  · subst hi
    simp [List.getElem?_set_self h, List.getD_eq_getElem?_getD,
      List.getElem?_eq_getElem h]
  · simp [List.getElem?_set_ne hi]

/-!
Claim C1: the spec §8 concrete scenario
-/

/-- C1 counterexample: running the concrete scenario (register size 4,
all-zero start, Flip(0); CondFlip(0,1); DoubleCondFlip(0,1,2); checkpoint;
Flip(3); restore) leaves the register at `[0,1,1,1]`, not at the `[1,1,1,0]`
the claim asserts: the checkpoint protected the very slot Flip(3) would have
been logged in, so restore replays the stale all-zero entry (a
DoubleCondFlip on cells 0,0,0) and flips cell 0 instead of cell 3. -/
theorem c1_scenario_counterexample :
    scnFinal.qubits = [0, 1, 1, 1] ∧ scnFinal.qubits ≠ [1, 1, 1, 0] := by
  with_unfolding_all decide

/-- C1 amended: in the concrete scenario, the three operations leave the
register at `[1,1,1,0]`, the checkpoint returns index 3, Flip(3) gives
`[1,1,1,1]`, and restore(3) decreases `total_ops` by exactly 1 (4 to 3) but
leaves the register at `[0,1,1,1]` rather than restoring `[1,1,1,0]`,
because the protected slot 3 never received the Flip(3) operation. -/
theorem c1_scenario_amended :
    scnAfter3.qubits = [1, 1, 1, 0] ∧
    scnCheckpoint.1 = 3 ∧
    scnAfterFlip3.qubits = [1, 1, 1, 1] ∧
    scnAfterFlip3.total_ops = 4 ∧
    scnFinal.total_ops = 3 ∧
    scnFinal.qubits = [0, 1, 1, 1] := by
  with_unfolding_all decide

/-!
Claim C4: involution of the four primitives
-/

/-- C4 counterexample: CondFlip with target equal to its control
(in-range index 0 of the one-cell register `[1]`) is not an involution:
applying it twice yields `[0]`. -/
theorem c4_involution_counterexample :
    applyCell ⟨1, 0, 0, 0⟩ (applyCell ⟨1, 0, 0, 0⟩ [1]) = [0] ∧
    applyCell ⟨1, 0, 0, 0⟩ (applyCell ⟨1, 0, 0, 0⟩ [1]) ≠ [1] ∧
    0 < [1].length := by
  with_unfolding_all decide

/-- C4 amended: for every register state and in-range operands, each of the
four operations applied twice in succession restores the register, provided
the flip target of CondFlip differs from its control and the flip target of
DoubleCondFlip differs from both controls (Flip and Exchange need no side
condition). -/
theorem c4_involution_amended (q : List Nat) (a b c : Nat)
    (ha : a < q.length) (hb : b < q.length) (hc : c < q.length) :
    applyCell ⟨2, a, 0, 0⟩ (applyCell ⟨2, a, 0, 0⟩ q) = q ∧
    (b ≠ a → applyCell ⟨1, a, b, 0⟩ (applyCell ⟨1, a, b, 0⟩ q) = q) ∧
    (c ≠ a → c ≠ b → applyCell ⟨0, a, b, c⟩ (applyCell ⟨0, a, b, c⟩ q) = q) ∧
    applyCell ⟨3, a, b, 0⟩ (applyCell ⟨3, a, b, 0⟩ q) = q := by
  refine ⟨?_, ?_, ?_, ?_⟩
  · show (q.set a ((q.getD a 0).xor 1)).set a
        (((q.set a ((q.getD a 0).xor 1)).getD a 0).xor 1) = q
    rw [getD_set_self q 0 a _ ha, List.set_set, xor_one_xor_one,
      set_getD_self q 0 a ha]
  · intro hba
    show applyCell ⟨1, a, b, 0⟩ (if q.getD a 0 ≠ 0 then
        q.set b ((q.getD b 0).xor 1) else q) = q
    by_cases hcond : q.getD a 0 ≠ 0
    · simp only [if_pos hcond]
      show (if (q.set b ((q.getD b 0).xor 1)).getD a 0 ≠ 0 then
          (q.set b ((q.getD b 0).xor 1)).set b
            (((q.set b ((q.getD b 0).xor 1)).getD b 0).xor 1)
        else q.set b ((q.getD b 0).xor 1)) = q
      rw [getD_set_ne q 0 hba, getD_set_self q 0 b _ hb, if_pos hcond,
        List.set_set, xor_one_xor_one, set_getD_self q 0 b hb]
    · simp only [if_neg hcond]
      show (if q.getD a 0 ≠ 0 then q.set b ((q.getD b 0).xor 1) else q) = q
      rw [if_neg hcond]
  · intro hca hcb
    show applyCell ⟨0, a, b, c⟩ (if q.getD a 0 ≠ 0 ∧ q.getD b 0 ≠ 0 then
        q.set c ((q.getD c 0).xor 1) else q) = q
    by_cases hcond : q.getD a 0 ≠ 0 ∧ q.getD b 0 ≠ 0
    · simp only [if_pos hcond]
      show (if (q.set c ((q.getD c 0).xor 1)).getD a 0 ≠ 0 ∧
              (q.set c ((q.getD c 0).xor 1)).getD b 0 ≠ 0 then
          (q.set c ((q.getD c 0).xor 1)).set c
            (((q.set c ((q.getD c 0).xor 1)).getD c 0).xor 1)
        else q.set c ((q.getD c 0).xor 1)) = q
      rw [getD_set_ne q 0 hca, getD_set_ne q 0 hcb,
        getD_set_self q 0 c _ hc, if_pos hcond, List.set_set,
        xor_one_xor_one, set_getD_self q 0 c hc]
    · simp only [if_neg hcond]
      show (if q.getD a 0 ≠ 0 ∧ q.getD b 0 ≠ 0 then
          q.set c ((q.getD c 0).xor 1) else q) = q
      rw [if_neg hcond]
  · show (((q.set a (q.getD b 0)).set b (q.getD a 0)).set a
        (((q.set a (q.getD b 0)).set b (q.getD a 0)).getD b 0)).set b
        (((q.set a (q.getD b 0)).set b (q.getD a 0)).getD a 0) = q
    by_cases hab : a = b
    · subst hab
      simp only [List.set_set]
      rw [getD_set_self q 0 a _ ha, set_getD_self q 0 a ha]
    · have hba : b ≠ a := fun h => hab h.symm
      rw [getD_set_self _ 0 b _ (by simpa using hb),
        getD_set_ne _ 0 hba, getD_set_self q 0 a _ ha,
        List.set_comm _ _ _ hba, List.set_set, List.set_set,
        set_getD_self q 0 a ha, set_getD_self q 0 b hb]

/-- C4 amended, witness: the involutions at the concrete register `[0, 1]`
with operands 0, 1, 1 (CondFlip control 0 and target 1, DoubleCondFlip
controls 0, 1 and target 1 is ruled out, so take target distinct). -/
theorem c4_involution_amended_witness :
    applyCell ⟨2, 0, 0, 0⟩ (applyCell ⟨2, 0, 0, 0⟩ [0, 1]) = [0, 1] ∧
    applyCell ⟨1, 0, 1, 0⟩ (applyCell ⟨1, 0, 1, 0⟩ [0, 1]) = [0, 1] ∧
    applyCell ⟨3, 0, 1, 0⟩ (applyCell ⟨3, 0, 1, 0⟩ [0, 1]) = [0, 1] := by
  have h := c4_involution_amended [0, 1] 0 1 1 (by decide) (by decide)
    (by decide)
  exact ⟨h.1, h.2.1 (by decide), h.2.2.2⟩

/-!
Claim C2: records hitting a protected slot
-/

/-- C2 counterexample: from a fresh runtime, checkpoint protects slot 0;
the next Flip(0) finds the protected occupant and indeed does not overwrite
it, but the cursor still advances to 1 and `total_ops` still becomes 1 —
the claim's "complete no-op" (cursor not advanced, `total_ops` not
incremented) is false. -/
theorem c2_protected_noop_counterexample :
    protAfter.tape.getD 0 emptyEntry = protState.tape.getD 0 emptyEntry ∧
    protAfter.tape_head = 1 ∧
    protAfter.total_ops = 1 := by
  with_unfolding_all decide

/-- C2 amended: when the slot at the cursor holds a protected entry (whose
fitness, as maintained by the code, is at most 1), a record call leaves the
whole tape unchanged — in particular the protected slot's stored operation —
but it does advance the cursor by +1 mod capacity and does increment
`total_ops`; the silent-skip early return is never taken for a protected
occupant because the candidate fitness of a protected slot is pinned at 1.
(The hypotheses keep `total_ops` below the uint32 bound and the record below
the pruning trigger, as in any run short of 2^32 operations and between
prune cycles.) -/
theorem c2_protected_record_amended (cap : Nat) (r : L2aRuntime)
    (cell : RCell)
    (hess : (r.tape.getD r.tape_head emptyEntry).essential = true)
    (hfit : (r.tape.getD r.tape_head emptyEntry).fitness ≤ 1)
    (hops : r.total_ops + 1 < U32)
    (hpr : (r.total_ops + 1 + U32 - r.last_prune_op) % U32 <
      r.fitness_params.prune_interval) :
    (record_to_tape cap r cell).tape = r.tape ∧
    (record_to_tape cap r cell).tape_head = (r.tape_head + 1) % cap ∧
    (record_to_tape cap r cell).total_ops = r.total_ops + 1 := by
  have hnf : l2a_compute_fitness r r.tape_head = 1 := by
    simp only [l2a_compute_fitness, entryFitness, hess]
    simp
  have hstored : recordStored r = false := by
    simp only [recordStored, l2a_compute_fitness, entryFitness, hess]
    simp
  have hmod : (r.total_ops + 1) % U32 = r.total_ops + 1 :=
    Nat.mod_eq_of_lt hops
  have hskip : ¬(l2a_compute_fitness r r.tape_head <
      (r.tape.getD r.tape_head emptyEntry).fitness ∧ r.tape_wrapped = true) := by
    intro h
    exact absurd (hnf ▸ h.1) (not_lt.mpr hfit)
  simp only [record_to_tape, hstored, Bool.false_eq_true, if_false,
    if_neg hskip, hmod, if_neg (not_le.mpr hpr)]
  exact ⟨trivial, trivial, trivial⟩

/-- C2 amended, witness at the fresh-checkpoint state. -/
theorem c2_protected_record_amended_witness :
    (record_to_tape L1_TAPE_SIZE protState ⟨2, 0, 0, 0⟩).tape =
      protState.tape ∧
    (record_to_tape L1_TAPE_SIZE protState ⟨2, 0, 0, 0⟩).tape_head =
      (protState.tape_head + 1) % L1_TAPE_SIZE ∧
    (record_to_tape L1_TAPE_SIZE protState ⟨2, 0, 0, 0⟩).total_ops =
      protState.total_ops + 1 :=
  c2_protected_record_amended L1_TAPE_SIZE protState ⟨2, 0, 0, 0⟩
    (by with_unfolding_all decide) (by with_unfolding_all decide)
    (by with_unfolding_all decide) (by with_unfolding_all decide)

/-!
Claim C3: the admission check's candidate fitness
-/

/-- C3: the code contradicts the claim (and its own comment "Compute fitness
for new operation"): `record_to_tape` computes the candidate fitness by
evaluating `l2a_compute_fitness` on the slot's **current occupant** (its
stored cell and real age), not on the incoming operation at age 0.  At the
wrapped state `admState`, the spec-side candidate fitness of the incoming
Flip(3) (61/100) is strictly below the occupant's stored fitness (7/10), so
the claimed rule rejects the write; the code nevertheless accepts and stores
it (cursor advances, `total_ops` increments, slot 0 now holds the Flip). -/
theorem c3_candidate_fitness_divergence :
    specCandidateFitness
        { admState with qubits := applyCell ⟨2, 3, 0, 0⟩ admState.qubits }
        ⟨2, 3, 0, 0⟩ <
      (admState.tape.getD 0 emptyEntry).fitness ∧
    admState.tape_head = 0 ∧
    admState.tape_wrapped = true ∧
    (admState.tape.getD 0 emptyEntry).essential = false ∧
    admAfter.tape_head = 1 ∧
    admAfter.total_ops = 3 ∧
    (admAfter.tape.getD 0 emptyEntry).cell = ⟨2, 3, 0, 0⟩ := by
  with_unfolding_all decide

/-!
Cursor / counter effect lemmas
-/

theorem prune_tape_head (cap : Nat) (r : L2aRuntime) :
    (l2a_prune_tape cap r).tape_head = r.tape_head := rfl

theorem prune_total_ops (cap : Nat) (r : L2aRuntime) :
    (l2a_prune_tape cap r).total_ops = r.total_ops := rfl

theorem prune_wrapped (cap : Nat) (r : L2aRuntime) :
    (l2a_prune_tape cap r).tape_wrapped = r.tape_wrapped := rfl

theorem prune_qubits (cap : Nat) (r : L2aRuntime) :
    (l2a_prune_tape cap r).qubits = r.qubits := rfl

theorem record_stored_effects (cap : Nat) (r : L2aRuntime) (cell : RCell)
    (h : recordStored r = true) :
    (record_to_tape cap r cell).tape_head = (r.tape_head + 1) % cap ∧
    (record_to_tape cap r cell).total_ops = (r.total_ops + 1) % U32 ∧
    (record_to_tape cap r cell).tape_wrapped =
      (if (r.tape_head + 1) % cap = 0 ∧ 0 < (r.total_ops + 1) % U32
       then true else r.tape_wrapped) := by
  simp only [record_to_tape, h, eq_self_iff_true, if_true]
  split
  · exact ⟨rfl, rfl, rfl⟩
  · exact ⟨rfl, rfl, rfl⟩

theorem record_head_cases (cap : Nat) (r : L2aRuntime) (cell : RCell) :
    (record_to_tape cap r cell).tape_head = (r.tape_head + 1) % cap ∨
    record_to_tape cap r cell = r := by
  simp only [record_to_tape]
  split
  · split
    · exact .inl rfl
    · exact .inl rfl
  · split
    · exact .inr rfl
    · split
      · exact .inl rfl
      · exact .inl rfl

theorem record_qubits (cap : Nat) (r : L2aRuntime) (cell : RCell) :
    (record_to_tape cap r cell).qubits = r.qubits := by
  simp only [record_to_tape]
  split
  · split
    · rfl
    · rfl
  · split
    · rfl
    · split
      · rfl
      · rfl

theorem runOp_eq_record (cap : Nat) (r : L2aRuntime) (o : MoopOp) :
    runOp cap r o =
      record_to_tape cap { r with qubits := applyCell (opCell o) r.qubits }
        (opCell o) := by
  cases o <;> rfl

theorem restoreAux_head_lt (cap : Nat) (hcap : 0 < cap) :
    ∀ (fuel : Nat) (r : L2aRuntime) (ck : Nat), r.tape_head < cap →
      (restoreAux cap fuel r ck).tape_head < cap
  | 0, _, _, hr => hr
  | fuel + 1, r, ck, hr => by
    simp only [restoreAux]
    split
    · exact hr
    · apply restoreAux_head_lt cap hcap fuel
      show (if r.tape_head = 0 then cap - 1 else r.tape_head - 1) < cap
      split
      · omega
      · omega

theorem runOps_accepted_state (cap : Nat) (hcap : 0 < cap)
    (hcapU : cap < U32) :
    ∀ (l : List MoopOp) (r : L2aRuntime) (n : Nat),
      allAccepted cap r l = true →
      r.tape_head = n % cap →
      r.total_ops = n % U32 →
      (cap ≤ n → r.tape_wrapped = true) →
      (runOps cap r l).tape_head = (n + l.length) % cap ∧
      (runOps cap r l).total_ops = (n + l.length) % U32 ∧
      (cap ≤ n + l.length → (runOps cap r l).tape_wrapped = true)
  | [], r, n, _, hh, ht, hw => by
    simp only [runOps, List.foldl_nil, List.length_nil, Nat.add_zero]
    exact ⟨hh, ht, hw⟩
  | o :: t, r, n, hacc, hh, ht, hw => by
    have hacc2 : opAccepted r o = true ∧
        allAccepted cap (runOp cap r o) t = true := by
      simpa [allAccepted, Bool.and_eq_true] using hacc
    have heff := record_stored_effects cap
      { r with qubits := applyCell (opCell o) r.qubits } (opCell o) hacc2.1
    rw [← runOp_eq_record] at heff
    have hh1 : (runOp cap r o).tape_head = (n + 1) % cap := by
      rw [heff.1]
      show (r.tape_head + 1) % cap = (n + 1) % cap
      rw [hh, Nat.mod_add_mod]
    have ht1 : (runOp cap r o).total_ops = (n + 1) % U32 := by
      rw [heff.2.1]
      show (r.total_ops + 1) % U32 = (n + 1) % U32
      rw [ht, Nat.mod_add_mod]
    have hw1 : cap ≤ n + 1 → (runOp cap r o).tape_wrapped = true := by
      intro hn1
      rw [heff.2.2]
      by_cases hn : cap ≤ n
      · split
        · rfl
        · exact hw hn
      · have hcapeq : n + 1 = cap := by omega
        have hhead0 : (r.tape_head + 1) % cap = 0 := by
          rw [hh]
          show (n % cap + 1) % cap = 0
          rw [Nat.mod_add_mod, hcapeq, Nat.mod_self]
        have hops0 : 0 < (r.total_ops + 1) % U32 := by
          rw [ht]
          show 0 < (n % U32 + 1) % U32
          rw [Nat.mod_add_mod, hcapeq, Nat.mod_eq_of_lt hcapU]
          exact hcap
        rw [if_pos ⟨hhead0, hops0⟩]
    have ih := runOps_accepted_state cap hcap hcapU t (runOp cap r o) (n + 1)
      hacc2.2 hh1 ht1 hw1
    have hlen : n + 1 + t.length = n + (o :: t).length := by
      simp [List.length_cons]
      omega
    have hrun : runOps cap r (o :: t) = runOps cap (runOp cap r o) t := by
      simp [runOps]
    rw [hrun, ← hlen]
    exact ih

theorem runCmd_head_lt (cap : Nat) (hcap : 0 < cap) (r : L2aRuntime)
    (hr : r.tape_head < cap) (c : MoopCmd) :
    (runCmd cap r c).tape_head < cap := by
  cases c with
  | op o =>
    rw [show runCmd cap r (.op o) = runOp cap r o from rfl,
      runOp_eq_record]
    rcases record_head_cases cap
        { r with qubits := applyCell (opCell o) r.qubits } (opCell o) with
      h | h
    · rw [h]; exact Nat.mod_lt _ hcap
    · rw [h]; exact hr
  | restore ck => exact restoreAux_head_lt cap hcap cap r ck hr
  | checkpoint => exact hr
  | prune => exact hr
  | writeTape i cell => exact hr
  | markEssential i => exact hr

theorem runCmds_head_lt (cap : Nat) (hcap : 0 < cap) (qn : Nat)
    (cmds : List MoopCmd) : (runCmds cap qn cmds).tape_head < cap := by
  suffices h : ∀ (l : List MoopCmd) (r : L2aRuntime), r.tape_head < cap →
      (l.foldl (runCmd cap) r).tape_head < cap by
    exact h cmds _ hcap
  intro l
  induction l with
  | nil => exact fun r hr => hr
  | cons c t ih => exact fun r hr => ih _ (runCmd_head_lt cap hcap r hr c)

/-!
Claim C5: wrap invariant and cursor range
-/

/-- C5: (i) recording `cap + k` operations (`k ≥ 1`) from a fresh runtime
with every record accepted leaves `tape_wrapped = true` and the cursor at
`k mod cap`; (ii) in every state reachable by any command sequence from a
fresh runtime the cursor lies in `[0, cap)`; (iii) every accepted record
advances the cursor by +1 mod cap. -/
theorem c5_wrap_invariant (cap : Nat) (hcap : 0 < cap) (hcapU : cap < U32) :
    (∀ (qn k : Nat) (l : List MoopOp), 1 ≤ k → l.length = cap + k →
      allAccepted cap (l2a_init cap qn) l = true →
      (runOps cap (l2a_init cap qn) l).tape_wrapped = true ∧
      (runOps cap (l2a_init cap qn) l).tape_head = k % cap) ∧
    (∀ (qn : Nat) (cmds : List MoopCmd),
      (runCmds cap qn cmds).tape_head < cap) ∧
    (∀ (r : L2aRuntime) (cell : RCell), recordStored r = true →
      (record_to_tape cap r cell).tape_head = (r.tape_head + 1) % cap) := by
  refine ⟨?_, ?_, ?_⟩
  · intro qn k l hk hlen hacc
    have h := runOps_accepted_state cap hcap hcapU l (l2a_init cap qn) 0 hacc
      rfl rfl (fun h => absurd h (by omega))
    rw [hlen] at h
    refine ⟨h.2.2 (by omega), ?_⟩
    rw [h.1, Nat.zero_add, Nat.add_mod_left]
  · intro qn cmds
    exact runCmds_head_lt cap hcap qn cmds
  · intro r cell h
    exact (record_stored_effects cap r cell h).1

/-- C5 witness at capacity 2: a 3-operation all-accepted run wraps and
leaves the cursor at 1; a single-command run keeps the cursor below 2; the
first record from a fresh runtime advances the cursor by +1 mod 2. -/
theorem c5_wrap_invariant_witness :
    (runOps 2 (l2a_init 2 1)
      [.ccnot 0 0 0, .not 0, .swap 0 0]).tape_wrapped = true ∧
    (runOps 2 (l2a_init 2 1) [.ccnot 0 0 0, .not 0, .swap 0 0]).tape_head =
      1 % 2 ∧
    (runCmds 2 1 [.op (.not 0)]).tape_head < 2 ∧
    (record_to_tape 2 (l2a_init 2 1) ⟨2, 0, 0, 0⟩).tape_head =
      ((l2a_init 2 1).tape_head + 1) % 2 := by
  have h := c5_wrap_invariant 2 (by decide) (by decide)
  have h1 := h.1 1 1 [.ccnot 0 0 0, .not 0, .swap 0 0] (by decide)
    (by decide) (by with_unfolding_all decide)
  exact ⟨h1.1, h1.2, h.2.1 1 [.op (.not 0)],
    h.2.2 (l2a_init 2 1) ⟨2, 0, 0, 0⟩ (by with_unfolding_all decide)⟩

/-!
Claim C10: register cells stay binary
-/

theorem bitsOk_getD (q : List Nat) (h : BitsOk q) (i : Nat) :
    q.getD i 0 = 0 ∨ q.getD i 0 = 1 := by
  by_cases hi : i < q.length
  · simp only [List.getD_eq_getElem?_getD, List.getElem?_eq_getElem hi,
      Option.getD_some]
    exact h _ (List.getElem_mem hi)
  · rw [List.getD_eq_getElem?_getD, List.getElem?_eq_none (by omega)]
    exact .inl rfl

theorem bitsOk_set (q : List Nat) (h : BitsOk q) {v : Nat}
    (hv : v = 0 ∨ v = 1) (i : Nat) : BitsOk (q.set i v) := by
  intro x hx
  rcases List.mem_or_eq_of_mem_set hx with hx' | hx'
  · exact h x hx'
  · subst hx'; exact hv

theorem xor_one_bit {x : Nat} (h : x = 0 ∨ x = 1) :
    x.xor 1 = 0 ∨ x.xor 1 = 1 := by
  rcases h with h | h <;> subst h <;> decide

theorem bitsOk_applyCell (c : RCell) (q : List Nat) (h : BitsOk q) :
    BitsOk (applyCell c q) := by
  unfold applyCell
  split
  · split
    · exact bitsOk_set q h (xor_one_bit (bitsOk_getD q h c.c)) c.c
    · exact h
  · split
    · exact bitsOk_set q h (xor_one_bit (bitsOk_getD q h c.b)) c.b
    · exact h
  · exact bitsOk_set q h (xor_one_bit (bitsOk_getD q h c.a)) c.a
  · exact bitsOk_set _ (bitsOk_set q h (bitsOk_getD q h c.b) c.a)
      (bitsOk_getD q h c.a) c.b
  · exact h

theorem restoreAux_qubits_ok (cap : Nat) :
    ∀ (fuel : Nat) (r : L2aRuntime) (ck : Nat), BitsOk r.qubits →
      BitsOk (restoreAux cap fuel r ck).qubits
  | 0, _, _, hr => hr
  | fuel + 1, r, ck, hr => by
    simp only [restoreAux]
    split
    · exact hr
    · exact restoreAux_qubits_ok cap fuel _ ck
        (bitsOk_applyCell _ _ hr)

theorem runCmd_qubits_ok (cap : Nat) (r : L2aRuntime)
    (h : BitsOk r.qubits) (c : MoopCmd) :
    BitsOk (runCmd cap r c).qubits := by
  cases c with
  | op o =>
    have he : (runCmd cap r (.op o)).qubits =
        applyCell (opCell o) r.qubits := by
      rw [show runCmd cap r (.op o) = runOp cap r o from rfl,
        runOp_eq_record, record_qubits]
    rw [he]
    exact bitsOk_applyCell _ _ h
  | restore ck => exact restoreAux_qubits_ok cap cap r ck h
  | checkpoint => exact h
  | prune => exact h
  | writeTape i cell => exact h
  | markEssential i => exact h

/-- C10: starting from a freshly initialized runtime, after any sequence of
the four operations (with in-range operands) and restore calls, every
register cell is exactly 0 or 1. -/
theorem c10_register_bits_invariant (cap qn : Nat) (cmds : List MoopCmd)
    (_hcmds : cmds.all (cmdOpOrRestore qn) = true) :
    BitsOk (runCmds cap qn cmds).qubits := by
  have base : BitsOk (l2a_init cap qn).qubits := by
    intro x hx
    exact .inl (List.eq_of_mem_replicate hx)
  suffices h : ∀ (l : List MoopCmd) (r : L2aRuntime), BitsOk r.qubits →
      BitsOk (l.foldl (runCmd cap) r).qubits from h cmds _ base
  intro l
  induction l with
  | nil => exact fun r hr => hr
  | cons c t ih => exact fun r hr => ih _ (runCmd_qubits_ok cap r hr c)

/-- C10 witness: after Flip(0), CondFlip(0,1) and a restore to 0, cell 0 of
the 4-cell register is 0 or 1. -/
theorem c10_register_bits_invariant_witness :
    (runCmds L1_TAPE_SIZE 4
        [.op (.not 0), .op (.cnot 0 1), .restore 0]).qubits.getD 0 0 = 0 ∨
    (runCmds L1_TAPE_SIZE 4
        [.op (.not 0), .op (.cnot 0 1), .restore 0]).qubits.getD 0 0 = 1 := by
  have h := c10_register_bits_invariant L1_TAPE_SIZE 4
    [.op (.not 0), .op (.cnot 0 1), .restore 0] (by decide)
  exact h _ (by with_unfolding_all decide)

/-!
Claim C8: fitness monotonicity in recency
-/

theorem entryFitness_recency_mono (r : L2aRuntime) (e1 e2 : TapeEntry)
    (hcell : e1.cell = e2.cell)
    (h1 : e1.essential = false) (h2 : e2.essential = false)
    (hlu : e1.last_used ≤ e2.last_used)
    (hle : e2.last_used ≤ r.total_ops)
    (hT : r.total_ops < U32)
    (hw : 0 ≤ r.fitness_params.recency_weight) :
    entryFitness r e1 ≤ entryFitness r e2 := by
  have hage : ∀ lu : Nat, lu ≤ r.total_ops →
      (r.total_ops + U32 - lu) % U32 = r.total_ops - lu := by
    intro lu hlu2
    have he : r.total_ops + U32 - lu = (r.total_ops - lu) + U32 := by omega
    rw [he, Nat.add_mod_right]
    exact Nat.mod_eq_of_lt (by omega)
  have hrec : ∀ a1 a2 : Nat, a2 ≤ a1 →
      (if a1 = 0 then (1 : ℚ) else 1 / (1 + (a1 : ℚ) / 100)) ≤
        (if a2 = 0 then (1 : ℚ) else 1 / (1 + (a2 : ℚ) / 100)) := by
    intro a1 a2 h12
    by_cases hz2 : a2 = 0
    · subst hz2
      rw [if_pos rfl]
      by_cases hz1 : a1 = 0
      · rw [if_pos hz1]
      · rw [if_neg hz1]
        rw [div_le_one (by positivity)]
        have : (0 : ℚ) ≤ (a1 : ℚ) / 100 := by positivity
        linarith
    · have hz1 : a1 ≠ 0 := by omega
      rw [if_neg hz1, if_neg hz2]
      apply one_div_le_one_div_of_le
      · positivity
      · have hc : (a2 : ℚ) ≤ (a1 : ℚ) := by exact_mod_cast h12
        linarith
  simp only [entryFitness, h1, h2, Bool.false_eq_true, if_false, hcell]
  have hkey := hrec (r.total_ops - e1.last_used) (r.total_ops - e2.last_used)
    (Nat.sub_le_sub_left hlu r.total_ops)
  rw [hage e1.last_used (le_trans hlu hle), hage e2.last_used hle]
  have hmul := mul_le_mul_of_nonneg_left hkey hw
  linarith

/-- C8 counterexample: at `c8CxState` the two entries have identical
operation kind and operands, `last_touch` 0 < 1, and are observed at the
same `total_ops = 0`, yet the fitness of the *more recently touched* entry
is strictly smaller: its uint32 age underflows to `2^32 - 1`, collapsing its
recency score. -/
theorem c8_fitness_monotone_counterexample :
    (c8CxState.tape.getD 0 emptyEntry).last_used <
      (c8CxState.tape.getD 1 emptyEntry).last_used ∧
    (c8CxState.tape.getD 0 emptyEntry).cell =
      (c8CxState.tape.getD 1 emptyEntry).cell ∧
    (c8CxState.tape.getD 0 emptyEntry).essential = false ∧
    (c8CxState.tape.getD 1 emptyEntry).essential = false ∧
    ¬ l2a_compute_fitness c8CxState 0 ≤ l2a_compute_fitness c8CxState 1 := by
  with_unfolding_all decide

/-- C8 amended: for two non-protected log entries with identical operation
kind and operands whose `last_touch` values satisfy `t1 < t2 ≤ total_ops`
(with `total_ops` within the uint32 range and a non-negative recency
weight), the fitness computed at the same `total_ops` satisfies
`fitness(t1) ≤ fitness(t2)`. -/
theorem c8_fitness_monotone_amended (r : L2aRuntime) (i j : Nat)
    (hcell : (r.tape.getD i emptyEntry).cell =
      (r.tape.getD j emptyEntry).cell)
    (hi : (r.tape.getD i emptyEntry).essential = false)
    (hj : (r.tape.getD j emptyEntry).essential = false)
    (ht : (r.tape.getD i emptyEntry).last_used <
      (r.tape.getD j emptyEntry).last_used)
    (htT : (r.tape.getD j emptyEntry).last_used ≤ r.total_ops)
    (hT : r.total_ops < U32)
    (hw : 0 ≤ r.fitness_params.recency_weight) :
    l2a_compute_fitness r i ≤ l2a_compute_fitness r j :=
  entryFitness_recency_mono r _ _ hcell hi hj (Nat.le_of_lt ht) htT hT hw

/-- C8 amended, witness at `c8WitState` (last touches 3 < 5 at
`total_ops = 6`). -/
theorem c8_fitness_monotone_amended_witness :
    l2a_compute_fitness c8WitState 0 ≤ l2a_compute_fitness c8WitState 1 :=
  c8_fitness_monotone_amended c8WitState 0 1
    (by with_unfolding_all decide) (by with_unfolding_all decide)
    (by with_unfolding_all decide) (by with_unfolding_all decide)
    (by with_unfolding_all decide) (by with_unfolding_all decide)
    (by with_unfolding_all decide)

/-!
Claim C9: homoiconic accessors reduce indices modulo capacity
-/

theorem getD_modify_self (l : List TapeEntry) (f : TapeEntry → TapeEntry)
    (i : Nat) (h : i < l.length) :
    (l.modify f i).getD i emptyEntry = f (l.getD i emptyEntry) := by
  simp [List.getD_eq_getElem?_getD, List.getElem?_modify_eq,
    List.getElem?_eq_getElem h]

theorem getD_modify_ne (l : List TapeEntry) (f : TapeEntry → TapeEntry)
    {i j : Nat} (h : j ≠ i) :
    (l.modify f i).getD j emptyEntry = l.getD j emptyEntry := by
  simp [List.getD_eq_getElem?_getD,
    List.getElem?_modify_ne f l (Ne.symm h)]

/-- C9: for every index `idx` (also `idx ≥ cap`), the homoiconic accessors
address slot `idx % cap`, which is a valid tape position, so none of them
can touch memory outside the tape: `read_tape` and `get_tape_entry` return
the `idx % cap` slot (and are invariant under adding `cap` to the index);
`write_tape` rewrites exactly slot `idx % cap` (cell and `last_used`),
leaves every other slot, the tape length, the cursor, `total_ops` and the
register unchanged; `mark_essential` sets exactly slot `idx % cap`'s
protection flag and fitness and leaves every other slot unchanged. -/
theorem c9_accessors_mod_capacity (cap : Nat) (hcap : 0 < cap)
    (r : L2aRuntime) (hlen : r.tape.length = cap) (idx : Nat)
    (cell : RCell) :
    idx % cap < cap ∧
    idx % cap < r.tape.length ∧
    l2a_read_tape cap r idx = (r.tape.getD (idx % cap) emptyEntry).cell ∧
    l2a_read_tape cap r (idx + cap) = l2a_read_tape cap r idx ∧
    l2a_get_tape_entry cap r (idx + cap) = l2a_get_tape_entry cap r idx ∧
    (l2a_write_tape cap r idx cell).tape_head = r.tape_head ∧
    (l2a_write_tape cap r idx cell).total_ops = r.total_ops ∧
    (l2a_write_tape cap r idx cell).qubits = r.qubits ∧
    (l2a_write_tape cap r idx cell).tape.length = r.tape.length ∧
    (l2a_write_tape cap r idx cell).tape.getD (idx % cap) emptyEntry =
      { r.tape.getD (idx % cap) emptyEntry with
          cell := cell, last_used := r.total_ops } ∧
    (∀ j, j ≠ idx % cap →
      (l2a_write_tape cap r idx cell).tape.getD j emptyEntry =
        r.tape.getD j emptyEntry) ∧
    (l2a_mark_essential cap r idx).tape.getD (idx % cap) emptyEntry =
      { r.tape.getD (idx % cap) emptyEntry with
          essential := true, fitness := 1 } ∧
    (∀ j, j ≠ idx % cap →
      (l2a_mark_essential cap r idx).tape.getD j emptyEntry =
        r.tape.getD j emptyEntry) := by
  have hm : idx % cap < cap := Nat.mod_lt _ hcap
  have hml : idx % cap < r.tape.length := by omega
  refine ⟨hm, hml, rfl, ?_, ?_, rfl, rfl, rfl, ?_, ?_, ?_, ?_, ?_⟩
  · show (r.tape.getD ((idx + cap) % cap) emptyEntry).cell =
      (r.tape.getD (idx % cap) emptyEntry).cell
    rw [Nat.add_mod_right]
  · show r.tape.getD ((idx + cap) % cap) emptyEntry =
      r.tape.getD (idx % cap) emptyEntry
    rw [Nat.add_mod_right]
  · exact List.length_modify _ _ _
  · exact getD_modify_self r.tape _ (idx % cap) hml
  · intro j hj
    exact getD_modify_ne r.tape _ hj
  · exact getD_modify_self r.tape _ (idx % cap) hml
  · intro j hj
    exact getD_modify_ne r.tape _ hj

/-- C9 witness at a fresh capacity-2 runtime with index 5 (5 mod 2 = 1). -/
theorem c9_accessors_mod_capacity_witness :
    l2a_read_tape 2 (l2a_init 2 1) 5 =
      ((l2a_init 2 1).tape.getD (5 % 2) emptyEntry).cell ∧
    (l2a_write_tape 2 (l2a_init 2 1) 5 ⟨2, 0, 0, 0⟩).tape_head =
      (l2a_init 2 1).tape_head ∧
    (l2a_write_tape 2 (l2a_init 2 1) 5 ⟨2, 0, 0, 0⟩).total_ops =
      (l2a_init 2 1).total_ops ∧
    (l2a_mark_essential 2 (l2a_init 2 1) 5).tape.getD (5 % 2) emptyEntry =
      { (l2a_init 2 1).tape.getD (5 % 2) emptyEntry with
          essential := true, fitness := 1 } := by
  have h := c9_accessors_mod_capacity 2 (by decide) (l2a_init 2 1)
    (by decide) 5 ⟨2, 0, 0, 0⟩
  exact ⟨h.2.2.1, h.2.2.2.2.2.1, h.2.2.2.2.2.2.1, h.2.2.2.2.2.2.2.2.2.2.2.1⟩

/-!
Claim C7: tuning is renormalized, partial-success, with recompute
-/

theorem tune_weights_pos (r : L2aRuntime) (p : FitnessParams)
    (h : 0 < p.recency_weight + p.activity_weight + p.gate_weight) :
    (l2a_tune_fitness r p).fitness_params.recency_weight =
      p.recency_weight /
        (p.recency_weight + p.activity_weight + p.gate_weight) ∧
    (l2a_tune_fitness r p).fitness_params.activity_weight =
      p.activity_weight /
        (p.recency_weight + p.activity_weight + p.gate_weight) ∧
    (l2a_tune_fitness r p).fitness_params.gate_weight =
      p.gate_weight /
        (p.recency_weight + p.activity_weight + p.gate_weight) := by
  simp only [l2a_tune_fitness, if_pos h]
  split <;> split <;> exact ⟨rfl, rfl, rfl⟩

theorem tune_weights_nonpos (r : L2aRuntime) (p : FitnessParams)
    (h : ¬ 0 < p.recency_weight + p.activity_weight + p.gate_weight) :
    (l2a_tune_fitness r p).fitness_params.recency_weight =
      r.fitness_params.recency_weight ∧
    (l2a_tune_fitness r p).fitness_params.activity_weight =
      r.fitness_params.activity_weight ∧
    (l2a_tune_fitness r p).fitness_params.gate_weight =
      r.fitness_params.gate_weight := by
  simp only [l2a_tune_fitness, if_neg h]
  split <;> split <;> exact ⟨rfl, rfl, rfl⟩

theorem tune_interval_eq (r : L2aRuntime) (p : FitnessParams) :
    (l2a_tune_fitness r p).fitness_params.prune_interval =
      (if 0 < p.prune_interval then p.prune_interval
       else r.fitness_params.prune_interval) := by
  simp only [l2a_tune_fitness]
  split <;> split <;> split <;> rfl

theorem tune_threshold_eq (r : L2aRuntime) (p : FitnessParams) :
    (l2a_tune_fitness r p).fitness_params.prune_threshold =
      (if 0 < p.prune_threshold ∧ p.prune_threshold ≤ 1 then
        p.prune_threshold
       else r.fitness_params.prune_threshold) := by
  simp only [l2a_tune_fitness]
  split <;> split <;> split <;> rfl

theorem getD_recompute (r' : L2aRuntime) (i : Nat)
    (h : i < r'.tape.length) :
    (recomputeFitness r').getD i emptyEntry =
      (if (r'.tape.getD i emptyEntry).essential then
        r'.tape.getD i emptyEntry
       else
        { r'.tape.getD i emptyEntry with
            fitness := entryFitness r' (r'.tape.getD i emptyEntry) }) := by
  simp [recomputeFitness, List.getD_eq_getElem?_getD,
    List.getElem?_eq_getElem h]

/-- C7: after any `tune_fitness` call on a runtime whose three weights sum
to 1, the weights again sum to exactly 1 (renormalized when the submitted
total is positive, untouched otherwise); a zero prune interval and an
out-of-(0,1] keep fraction are each individually ignored while every valid
parameter in the same call is applied; and the fitness of every
non-protected entry is recomputed under the new parameters, protected
entries being left untouched. -/
theorem c7_tune_fitness_spec (r : L2aRuntime) (p : FitnessParams)
    (hsum : r.fitness_params.recency_weight +
      r.fitness_params.activity_weight + r.fitness_params.gate_weight = 1) :
    ((l2a_tune_fitness r p).fitness_params.recency_weight +
      (l2a_tune_fitness r p).fitness_params.activity_weight +
      (l2a_tune_fitness r p).fitness_params.gate_weight = 1) ∧
    (p.prune_interval = 0 →
      (l2a_tune_fitness r p).fitness_params.prune_interval =
        r.fitness_params.prune_interval) ∧
    (0 < p.prune_interval →
      (l2a_tune_fitness r p).fitness_params.prune_interval =
        p.prune_interval) ∧
    (¬(0 < p.prune_threshold ∧ p.prune_threshold ≤ 1) →
      (l2a_tune_fitness r p).fitness_params.prune_threshold =
        r.fitness_params.prune_threshold) ∧
    ((0 < p.prune_threshold ∧ p.prune_threshold ≤ 1) →
      (l2a_tune_fitness r p).fitness_params.prune_threshold =
        p.prune_threshold) ∧
    (∀ i, i < r.tape.length →
      (r.tape.getD i emptyEntry).essential = false →
      (l2a_tune_fitness r p).tape.getD i emptyEntry =
        { r.tape.getD i emptyEntry with
            fitness := entryFitness
              { r with
                  fitness_params := (l2a_tune_fitness r p).fitness_params }
              (r.tape.getD i emptyEntry) }) ∧
    (∀ i, (r.tape.getD i emptyEntry).essential = true →
      (l2a_tune_fitness r p).tape.getD i emptyEntry =
        r.tape.getD i emptyEntry) := by
  have htape : (l2a_tune_fitness r p).tape =
      recomputeFitness
        { r with fitness_params := (l2a_tune_fitness r p).fitness_params } :=
    rfl
  have hlen2 : ∀ i : Nat,
      ({ r with fitness_params := (l2a_tune_fitness r p).fitness_params }
        : L2aRuntime).tape.length = r.tape.length := fun _ => rfl
  refine ⟨?_, ?_, ?_, ?_, ?_, ?_, ?_⟩
  · by_cases h : 0 < p.recency_weight + p.activity_weight + p.gate_weight
    · have hw := tune_weights_pos r p h
      rw [hw.1, hw.2.1, hw.2.2, div_add_div_same, div_add_div_same,
        div_self (ne_of_gt h)]
    · have hw := tune_weights_nonpos r p h
      rw [hw.1, hw.2.1, hw.2.2]
      exact hsum
  · intro h0
    rw [tune_interval_eq, if_neg (by omega)]
  · intro hpos
    rw [tune_interval_eq, if_pos hpos]
  · intro hbad
    rw [tune_threshold_eq, if_neg hbad]
  · intro hgood
    rw [tune_threshold_eq, if_pos hgood]
  · intro i hi hess
    rw [htape, getD_recompute _ i (by rw [hlen2 i]; exact hi)]
    have he : ({ r with
        fitness_params := (l2a_tune_fitness r p).fitness_params }
          : L2aRuntime).tape.getD i emptyEntry =
        r.tape.getD i emptyEntry := rfl
    rw [he, hess]
    simp
  · intro i hess
    by_cases hi : i < r.tape.length
    · rw [htape, getD_recompute _ i (by rw [hlen2 i]; exact hi)]
      have he : ({ r with
          fitness_params := (l2a_tune_fitness r p).fitness_params }
            : L2aRuntime).tape.getD i emptyEntry =
          r.tape.getD i emptyEntry := rfl
      rw [he, hess]
      simp
    · have h1 : (l2a_tune_fitness r p).tape.getD i emptyEntry = emptyEntry := by
        rw [List.getD_eq_getElem?_getD, List.getElem?_eq_none]
        · rfl
        · rw [htape]
          simp only [recomputeFitness, List.length_map]
          exact Nat.le_of_not_lt hi
      have h2 : r.tape.getD i emptyEntry = emptyEntry := by
        rw [List.getD_eq_getElem?_getD, List.getElem?_eq_none (by omega)]
        rfl
      rw [h1, h2]

/-- C7 witness: tuning a fresh runtime with weights (1,1,2), a zero
interval and keep fraction 3/2 renormalizes weights to sum 1 while keeping
interval 256 and fraction 3/4. -/
theorem c7_tune_fitness_spec_witness :
    ((l2a_tune_fitness (l2a_init 2 1)
        ⟨1, 1, 2, 0, 3/2⟩).fitness_params.recency_weight +
      (l2a_tune_fitness (l2a_init 2 1)
        ⟨1, 1, 2, 0, 3/2⟩).fitness_params.activity_weight +
      (l2a_tune_fitness (l2a_init 2 1)
        ⟨1, 1, 2, 0, 3/2⟩).fitness_params.gate_weight = 1) ∧
    (l2a_tune_fitness (l2a_init 2 1)
      ⟨1, 1, 2, 0, 3/2⟩).fitness_params.prune_interval =
      (l2a_init 2 1).fitness_params.prune_interval ∧
    (l2a_tune_fitness (l2a_init 2 1)
      ⟨1, 1, 2, 0, 3/2⟩).fitness_params.prune_threshold =
      (l2a_init 2 1).fitness_params.prune_threshold := by
  have h := c7_tune_fitness_spec (l2a_init 2 1) ⟨1, 1, 2, 0, 3/2⟩
    (by with_unfolding_all decide)
  exact ⟨h.1, h.2.1 rfl, h.2.2.2.1 (by with_unfolding_all decide)⟩

/-!
Claim C6: bubble sort correctness and the pruning contract
-/

theorem bpAux_perm : ∀ (a : TapeEntry) (t : List TapeEntry),
    (bpAux a t).Perm (a :: t)
  | _, [] => List.Perm.refl _
  | a, b :: t => by
    simp only [bpAux]
    split
    · exact ((bpAux_perm a t).cons b).trans (List.Perm.swap a b t)
    · exact (bpAux_perm b t).cons a

theorem bubblePass_perm (l : List TapeEntry) : (bubblePass l).Perm l := by
  cases l with
  | nil => exact List.Perm.refl _
  | cons a t => exact bpAux_perm a t

theorem bpAux_sorted_id : ∀ (a : TapeEntry) (t : List TapeEntry),
    SortedDesc (a :: t) → bpAux a t = a :: t
  | _, [], _ => rfl
  | a, b :: t, h => by
    have hp := List.pairwise_cons.mp h
    have hba : b.fitness ≤ a.fitness := hp.1 b (by simp)
    simp only [bpAux, if_neg (not_lt.mpr hba)]
    rw [bpAux_sorted_id b t hp.2]

theorem bubblePass_sorted_id (l : List TapeEntry) (h : SortedDesc l) :
    bubblePass l = l := by
  cases l with
  | nil => rfl
  | cons a t => exact bpAux_sorted_id a t h

theorem bpAux_min : ∀ (a : TapeEntry) (t : List TapeEntry),
    ∃ l' m, bpAux a t = l' ++ [m] ∧ m.fitness ≤ a.fitness ∧
      ∀ x ∈ t, m.fitness ≤ x.fitness
  | a, [] => ⟨[], a, rfl, le_refl _, by simp⟩
  | a, b :: t => by
    by_cases h : a.fitness < b.fitness
    · obtain ⟨l', m, heq, hma, hmt⟩ := bpAux_min a t
      refine ⟨b :: l', m, ?_, hma, ?_⟩
      · simp only [bpAux, if_pos h, heq, List.cons_append]
      · intro x hx
        rcases List.mem_cons.mp hx with hx | hx
        · subst hx
          exact le_trans hma (le_of_lt h)
        · exact hmt x hx
    · obtain ⟨l', m, heq, hmb, hmt⟩ := bpAux_min b t
      refine ⟨a :: l', m, ?_, le_trans hmb (not_lt.mp h), ?_⟩
      · simp only [bpAux, if_neg h, heq, List.cons_append]
      · intro x hx
        rcases List.mem_cons.mp hx with hx | hx
        · subst hx
          exact hmb
        · exact hmt x hx

theorem bpAux_append_sorted :
    ∀ (p : List TapeEntry) (a : TapeEntry) (s : List TapeEntry),
      (∀ x ∈ s, ∀ y ∈ a :: p, x.fitness ≤ y.fitness) → SortedDesc s →
      bpAux a (p ++ s) = bpAux a p ++ s
  | [], a, s, hps, hs => by
    cases s with
    | nil => rfl
    | cons x s' =>
      have hxa : x.fitness ≤ a.fitness := hps x (by simp) a (by simp)
      show bpAux a (x :: s') = [a] ++ (x :: s')
      simp only [bpAux, if_neg (not_lt.mpr hxa)]
      rw [bpAux_sorted_id x s' hs]
      rfl
  | b :: p', a, s, hps, hs => by
    show (if a.fitness < b.fitness then b :: bpAux a (p' ++ s)
          else a :: bpAux b (p' ++ s)) =
        (if a.fitness < b.fitness then b :: bpAux a p'
          else a :: bpAux b p') ++ s
    by_cases h : a.fitness < b.fitness
    · rw [if_pos h, if_pos h,
        bpAux_append_sorted p' a s
          (fun x hx y hy => hps x hx y (by
            rcases List.mem_cons.mp hy with hy | hy
            · exact hy ▸ List.mem_cons_self a _
            · exact List.mem_cons_of_mem a (List.mem_cons_of_mem b hy))) hs]
      rfl
    · rw [if_neg h, if_neg h,
        bpAux_append_sorted p' b s
          (fun x hx y hy => hps x hx y (by
            rcases List.mem_cons.mp hy with hy | hy
            · subst hy
              exact List.mem_cons_of_mem a (List.mem_cons_self y _)
            · exact List.mem_cons_of_mem a (List.mem_cons_of_mem b hy))) hs]
      rfl

theorem bubblePasses_sorted_aux :
    ∀ (k : Nat) (p s : List TapeEntry), p.length ≤ k + 1 → SortedDesc s →
      (∀ x ∈ s, ∀ y ∈ p, x.fitness ≤ y.fitness) →
      SortedDesc (bubblePasses k (p ++ s)) ∧
        (bubblePasses k (p ++ s)).Perm (p ++ s)
  | 0, p, s, hp, hs, hps => by
    match p, hp with
    | [], _ =>
      exact ⟨hs, List.Perm.refl _⟩
    | [y], _ =>
      refine ⟨List.pairwise_cons.mpr ⟨fun x hx => hps x hx y (by simp), hs⟩,
        List.Perm.refl _⟩
    | y1 :: y2 :: p', hp => simp at hp
  | k + 1, p, s, hp, hs, hps => by
    match p with
    | [] =>
      have hid : bubblePass ([] ++ s) = [] ++ s := by
        simp only [List.nil_append]
        exact bubblePass_sorted_id s hs
      show SortedDesc (bubblePasses k (bubblePass ([] ++ s))) ∧
        (bubblePasses k (bubblePass ([] ++ s))).Perm ([] ++ s)
      rw [hid]
      exact bubblePasses_sorted_aux k [] s (by simp) hs hps
    | a :: p'' =>
      have h3 : bpAux a (p'' ++ s) = bpAux a p'' ++ s :=
        bpAux_append_sorted p'' a s (fun x hx y hy => hps x hx y hy) hs
      obtain ⟨l', m, heq, hma, hmt⟩ := bpAux_min a p''
      have hperm1 : (l' ++ [m]).Perm (a :: p'') := heq ▸ bpAux_perm a p''
      have hm_in : m ∈ a :: p'' := hperm1.subset (by simp)
      have hmin : ∀ y ∈ a :: p'', m.fitness ≤ y.fitness := by
        intro y hy
        rcases List.mem_cons.mp hy with hy | hy
        · exact hy ▸ hma
        · exact hmt y hy
      have hs' : SortedDesc (m :: s) :=
        List.pairwise_cons.mpr ⟨fun x hx => hps x hx m hm_in, hs⟩
      have hps' : ∀ x ∈ m :: s, ∀ y ∈ l', x.fitness ≤ y.fitness := by
        intro x hx y hyl
        have hy_in : y ∈ a :: p'' :=
          hperm1.subset (List.mem_append_left [m] hyl)
        rcases List.mem_cons.mp hx with hx | hx
        · exact hx ▸ hmin y hy_in
        · exact hps x hx y hy_in
      have hlen' : l'.length ≤ k + 1 := by
        have h4 := hperm1.length_eq
        simp only [List.length_append, List.length_cons,
          List.length_singleton] at h4
        have h5 := hp
        simp only [List.length_cons] at h5
        omega
      have hrw : bubblePass ((a :: p'') ++ s) = l' ++ (m :: s) := by
        show bpAux a (p'' ++ s) = l' ++ (m :: s)
        rw [h3, heq, List.append_assoc]
        rfl
      have hstep : bubblePasses (k + 1) ((a :: p'') ++ s) =
          bubblePasses k (l' ++ (m :: s)) := by
        show bubblePasses k (bubblePass ((a :: p'') ++ s)) =
          bubblePasses k (l' ++ (m :: s))
        rw [hrw]
      have ih := bubblePasses_sorted_aux k l' (m :: s) hlen' hs' hps'
      refine ⟨hstep ▸ ih.1, ?_⟩
      rw [hstep]
      have hback : (l' ++ (m :: s)).Perm ((a :: p'') ++ s) := by
        rw [← hrw]
        exact bubblePass_perm _
      exact ih.2.trans hback

theorem bubblePasses_sorted (l : List TapeEntry) (k : Nat)
    (hk : l.length ≤ k + 1) :
    SortedDesc (bubblePasses k l) ∧ (bubblePasses k l).Perm l := by
  have h := bubblePasses_sorted_aux k l [] (by simpa using hk)
    (List.Pairwise.nil) (by simp)
  simpa using h

theorem bubblePasses_perm : ∀ (k : Nat) (l : List TapeEntry),
    (bubblePasses k l).Perm l
  | 0, _ => List.Perm.refl _
  | k + 1, l => (bubblePasses_perm k (bubblePass l)).trans (bubblePass_perm l)

theorem resetTailGo_length : ∀ (cut i0 : Nat) (l : List TapeEntry),
    (resetTailGo cut i0 l).length = l.length
  | _, _, [] => rfl
  | cut, i0, e :: t => by
    simp only [resetTailGo, List.length_cons,
      resetTailGo_length cut (i0 + 1) t]

theorem resetTailGo_getD : ∀ (cut i0 : Nat) (l : List TapeEntry) (j : Nat),
    j < l.length →
    (resetTailGo cut i0 l).getD j emptyEntry =
      (if cut ≤ i0 + j ∧ (l.getD j emptyEntry).essential = false then
        emptyEntry else l.getD j emptyEntry)
  | _, _, [], j, h => by simp at h
  | cut, i0, e :: t, 0, _ => by
    simp [resetTailGo]
  | cut, i0, e :: t, j + 1, h => by
    simp only [resetTailGo, List.getD_cons_succ]
    rw [resetTailGo_getD cut (i0 + 1) t j (by simpa using h)]
    have hadd : i0 + 1 + j = i0 + (j + 1) := by omega
    rw [hadd]

/-- C6: with `mid` the bubble-sorted (descending fitness, `cap - 1` passes)
recomputation of the tape, a prune call (i) produces exactly `mid` with its
tail reset: `mid` is sorted descending by fitness and is a permutation of
the recomputed entries (physical reordering), (ii) positions before the cut
`⌊cap · keep_fraction⌋` keep their sorted entries, (iii) every non-protected
entry at or past the cut is reset to the empty/no-op entry (fitness 0,
`last_touch` 0), (iv) protected entries are never reset, and (v)
`pruning_cycles` increases by exactly 1. -/
theorem c6_prune_spec (cap : Nat) (r : L2aRuntime)
    (hlen : r.tape.length = cap) :
    SortedDesc (bubblePasses (cap - 1) (recomputeFitness r)) ∧
    (bubblePasses (cap - 1) (recomputeFitness r)).Perm
      (recomputeFitness r) ∧
    (l2a_prune_tape cap r).tape =
      resetTail (((cap : ℚ) * r.fitness_params.prune_threshold).floor.toNat)
        (bubblePasses (cap - 1) (recomputeFitness r)) ∧
    (∀ j, j < cap →
      j < ((cap : ℚ) * r.fitness_params.prune_threshold).floor.toNat →
      (l2a_prune_tape cap r).tape.getD j emptyEntry =
        (bubblePasses (cap - 1) (recomputeFitness r)).getD j emptyEntry) ∧
    (∀ j, j < cap →
      ((cap : ℚ) * r.fitness_params.prune_threshold).floor.toNat ≤ j →
      ((bubblePasses (cap - 1) (recomputeFitness r)).getD j
        emptyEntry).essential = false →
      (l2a_prune_tape cap r).tape.getD j emptyEntry = emptyEntry) ∧
    (∀ j, j < cap →
      ((bubblePasses (cap - 1) (recomputeFitness r)).getD j
        emptyEntry).essential = true →
      (l2a_prune_tape cap r).tape.getD j emptyEntry =
        (bubblePasses (cap - 1) (recomputeFitness r)).getD j emptyEntry) ∧
    (l2a_prune_tape cap r).pruning_cycles = r.pruning_cycles + 1 := by
  have hrlen : (recomputeFitness r).length = cap := by
    simp [recomputeFitness, hlen]
  have hsp := bubblePasses_sorted (recomputeFitness r) (cap - 1)
    (by omega)
  have hmidlen : (bubblePasses (cap - 1) (recomputeFitness r)).length =
      cap := by
    rw [(bubblePasses_perm (cap - 1) (recomputeFitness r)).length_eq, hrlen]
  refine ⟨hsp.1, hsp.2, rfl, ?_, ?_, ?_, rfl⟩
  · intro j hj hcut
    show (resetTailGo _ 0 _).getD j emptyEntry = _
    rw [resetTailGo_getD _ 0 _ j (by omega)]
    rw [if_neg]
    intro hcontra
    omega
  · intro j hj hcut hess
    show (resetTailGo _ 0 _).getD j emptyEntry = _
    rw [resetTailGo_getD _ 0 _ j (by omega)]
    rw [if_pos ⟨by omega, hess⟩]
  · intro j hj hess
    show (resetTailGo _ 0 _).getD j emptyEntry = _
    rw [resetTailGo_getD _ 0 _ j (by omega)]
    rw [if_neg]
    intro hcontra
    rw [hess] at hcontra
    exact absurd hcontra.2 (by simp)

/-- C6 witness at `pruneWitState` (capacity 2, keep fraction 3/4, cut 1):
the sorted recomputation is descending, the prune bumps `pruning_cycles`
from 0 to 1, and the unprotected entry ranked at the cut is reset to the
empty entry. -/
theorem c6_prune_spec_witness :
    SortedDesc (bubblePasses (2 - 1) (recomputeFitness pruneWitState)) ∧
    (l2a_prune_tape 2 pruneWitState).pruning_cycles =
      pruneWitState.pruning_cycles + 1 ∧
    (l2a_prune_tape 2 pruneWitState).tape.getD 1 emptyEntry = emptyEntry := by
  have h := c6_prune_spec 2 pruneWitState (by decide)
  refine ⟨h.1, h.2.2.2.2.2.2, ?_⟩
  exact h.2.2.2.2.1 1 (by decide) (by with_unfolding_all decide)
    (by with_unfolding_all decide)
